import Mathlib

/-!
# Verification of the crystal change-tracking core

Shallow embedding of the diff capture/aggregation engine
(`src/main/src/services/gitDiffManager.ts`), the unified diff parser
(`parseUnifiedDiff` in the diff viewer component), and the working-tree
change watcher (`src/main/src/services/gitFileWatcher.ts`), together with
theorems settling the specification claims about them.

Strings are mostly manipulated as `List Char` so that every recursion is
structural and every concrete instance evaluates by `decide`/`rfl`.
JavaScript string primitives (`trim`, `split`, substring search, the few
fixed regular expressions the code uses) are translated char-by-char.
-/

namespace Crystal

/-! ## JavaScript string primitives, modelled on `List Char` -/

/-- JS `String.prototype.trim` whitespace test (ASCII subset: space, tab,
CR, LF — the characters that occur in git output). -/
def jsWs (c : Char) : Bool :=
  c = ' ' || c = '\t' || c = '\r' || c = '\n'

/-- Drop leading whitespace. -/
def dropWs (cs : List Char) : List Char := cs.dropWhile jsWs

/-- JS `s.trim()`: drop whitespace from both ends. -/
def jsTrim (cs : List Char) : List Char :=
  ((dropWs cs).reverse.dropWhile jsWs).reverse

/-- `trim` lifted to `String`. -/
def jsTrimS (s : String) : String := String.mk (jsTrim s.data)

/-- JS `s.split('\n')`: always returns at least one segment. -/
def splitOnNL : List Char → List (List Char)
  | [] => [[]]
  | c :: rest =>
    if c = '\n' then [] :: splitOnNL rest
    else
      match splitOnNL rest with
      | l :: ls => (c :: l) :: ls
      | [] => [[c]]

/-- JS `s.split(/\r?\n/)` (used for cross-platform line counting). -/
def splitRN : List Char → List (List Char)
  | [] => [[]]
  | '\r' :: '\n' :: rest => [] :: splitRN rest
  | '\n' :: rest => [] :: splitRN rest
  | c :: rest =>
    match splitRN rest with
    | l :: ls => (c :: l) :: ls
    | [] => [[c]]

/-- JS `s.split(sep)` on an arbitrary character separator. -/
def splitOnChar (sep : Char) : List Char → List (List Char)
  | [] => [[]]
  | c :: rest =>
    if c = sep then [] :: splitOnChar sep rest
    else
      match splitOnChar sep rest with
      | l :: ls => (c :: l) :: ls
      | [] => [[c]]

/-- JS `s.includes(needle)`: substring search. -/
def containsSeq (needle : List Char) : List Char → Bool
  | [] => needle.isEmpty
  | c :: rest => needle.isPrefixOf (c :: rest) || containsSeq needle rest

/-- Substring search lifted to `String`. -/
def containsSub (hay needle : String) : Bool := containsSeq needle.data hay.data

/-- Numeric value of a digit run (base 10), as JS `parseInt` on a digit
string. -/
def digitsToNat (ds : List Char) : Nat :=
  ds.foldl (fun n c => n * 10 + (c.toNat - '0'.toNat)) 0

/-- JS `parseInt(s, 10)` restricted to the shapes git emits: an optional
leading digit run; no digits at all gives `NaN` (`none`). -/
def jsParseInt (cs : List Char) : Option Nat :=
  match cs with
  | [] => none
  | c :: _ => if c.isDigit then some (digitsToNat (cs.takeWhile Char.isDigit)) else none

/-- Accumulator pass for `splitWsRuns`. -/
def wsRunsAux : List Char → List Char → List (List Char)
  | [], acc => if acc.isEmpty then [] else [acc.reverse]
  | c :: rest, acc =>
    if jsWs c then
      if acc.isEmpty then wsRunsAux rest []
      else acc.reverse :: wsRunsAux rest []
    else wsRunsAux rest (c :: acc)

/-- Split on runs of whitespace, as JS `s.split(/\s+/)` on an already
trimmed string (the only way the code calls it). -/
def splitWsRuns (cs : List Char) : List (List Char) := wsRunsAux cs []

/-! ## Data model of `gitDiffManager.ts` -/

/-- `GitDiffStats` from `gitDiffManager.ts`. -/
structure GitDiffStats where
  additions : Nat
  deletions : Nat
  filesChanged : Nat
deriving DecidableEq, Repr

/-- `GitDiffResult` from `gitDiffManager.ts` (`beforeHash`/`afterHash` are
optional fields). -/
structure GitDiffResult where
  diff : String
  stats : GitDiffStats
  changedFiles : List String
  beforeHash : Option String
  afterHash : Option String
deriving DecidableEq, Repr

/-! ## `parseDiffStats`

The source regexes `/(\d+) files? changed/`, `/(\d+) insertions?\(\+\)/`,
`/(\d+) deletions?\(-\)/` each match a digit run immediately followed by a
fixed literal (the digit run cannot backtrack into the literal because the
literal starts with a space).  `findCount` returns the value of the
leftmost such match. -/

def findCount (litSing litPlur : List Char) : List Char → Option Nat
  | [] => none
  | c :: rest =>
    if c.isDigit then
      let run := (c :: rest).takeWhile Char.isDigit
      let after := (c :: rest).dropWhile Char.isDigit
      if litPlur.isPrefixOf after || litSing.isPrefixOf after then
        some (digitsToNat run)
      else findCount litSing litPlur rest
    else findCount litSing litPlur rest

/-- The three regex extractions applied to the summary line, absent groups
defaulting to `0` (`fileMatch ? parseInt(fileMatch[1]) : 0` etc.). -/
def statsOfLine (l : List Char) : GitDiffStats :=
  { filesChanged := (findCount " file changed".data " files changed".data l).getD 0
    additions := (findCount " insertion(+)".data " insertions(+)".data l).getD 0
    deletions := (findCount " deletion(-)".data " deletions(-)".data l).getD 0 }

/-- `GitDiffManager.parseDiffStats`: trim the raw output, split into lines,
take the last line, and extract the three optional integer groups. -/
def parseDiffStats (statsOutput : String) : GitDiffStats :=
  statsOfLine ((splitOnNL (jsTrim statsOutput.data)).getLastD [])

/-! ## `combineDiffs` -/

/-- Insert at the back unless already present: the effect of adding one
element to a JS `Set` (insertion order preserved, duplicates dropped). -/
def addUnique (acc : List String) (f : String) : List String :=
  if f ∈ acc then acc else acc ++ [f]

/-- `GitDiffManager.combineDiffs`: concatenate diff texts with blank-line
separators, sum additions/deletions, deduplicate changed files through a
`Set`, and take the first result's `beforeHash` and the last result's
`afterHash` (optional-chaining on `diffs[0]` / `diffs[diffs.length-1]`). -/
def combineDiffs (diffs : List GitDiffResult) : GitDiffResult :=
  let combinedDiff := String.intercalate "\n\n" (diffs.map (·.diff))
  let adds := diffs.foldl (fun sum d => sum + d.stats.additions) 0
  let dels := diffs.foldl (fun sum d => sum + d.stats.deletions) 0
  let changedFiles := diffs.foldl (fun acc d => d.changedFiles.foldl addUnique acc) []
  { diff := combinedDiff
    stats := { additions := adds, deletions := dels, filesChanged := changedFiles.length }
    changedFiles := changedFiles
    beforeHash := diffs.head?.bind (·.beforeHash)
    afterHash := diffs.getLast?.bind (·.afterHash) }

/-! ## Association lists (JS `Map` with string keys)

`alistSet` implements `Map.set` (lookup sees the latest binding),
`alistDel` implements `Map.delete`. -/

def alistGet {α : Type} (k : String) : List (String × α) → Option α
  | [] => none
  | p :: rest => if p.1 = k then some p.2 else alistGet k rest

def alistDel {α : Type} (k : String) (l : List (String × α)) : List (String × α) :=
  l.filter (fun p => p.1 ≠ k)

def alistSet {α : Type} (k : String) (v : α) (l : List (String × α)) : List (String × α) :=
  (k, v) :: alistDel k l

/-! ## Paths

POSIX reading of `path.isAbsolute` / `path.join` (join modulo separator
normalization, which git's relative `--git-dir` output does not need). -/

def isAbsPath (p : String) : Bool := p.data.headD ' ' = '/'

def joinPath (a b : String) : String := a ++ "/" ++ b

/-! ## `getDiffStats` (working-tree stats = tracked diffstat + untracked)

The gateway and filesystem are an explicit environment: `none` models the
call throwing (non-zero exit / unreadable file), which the source catches
per call site. -/

structure DiffEnv where
  /-- Output of `git diff --stat HEAD`; `none` = command failed. -/
  statOutput : Option String
  /-- Output of `git ls-files --others --exclude-standard`; `none` = failed. -/
  untrackedOutput : Option String
  /-- `fs.readFileSync`; `none` = unreadable (binary / permission denied). -/
  readFile : String → Option String

/-- `GitDiffManager.getUntrackedFiles`: trim, split into lines, drop blank
entries; any failure degrades to the empty list. -/
def getUntrackedFiles (env : DiffEnv) : List String :=
  match env.untrackedOutput with
  | none => []
  | some output =>
    if (jsTrim output.data).isEmpty then []
    else ((splitOnNL (jsTrim output.data)).map String.mk).filter
      (fun f => f ≠ "" && jsTrimS f ≠ "")

/-- JS `content.length === 0 ? 0 : content.split(/\r?\n/).length`. -/
def jsLineCount (content : String) : Nat :=
  if content.data.isEmpty then 0 else (splitRN content.data).length

/-- The per-file skip guard `!file || file.trim().length === 0`. -/
def blankStr (f : String) : Bool := f = "" || jsTrimS f = ""

/-- `GitDiffManager.getDiffStats`: parse the tracked diffstat summary, then
add each readable untracked file's split-line count to additions and every
untracked file to `filesChanged`. -/
def getDiffStats (env : DiffEnv) (worktreePath : String) : GitDiffStats :=
  match env.statOutput with
  | none => ⟨0, 0, 0⟩
  | some output =>
    let trackedStats := parseDiffStats output
    let untrackedFiles := getUntrackedFiles env
    if untrackedFiles.length > 0 then
      let untrackedAdds := untrackedFiles.foldl
        (fun acc file =>
          if blankStr file then acc
          else
            match env.readFile (joinPath worktreePath (jsTrimS file)) with
            | none => acc
            | some content => acc + jsLineCount content)
        0
      { additions := trackedStats.additions + untrackedAdds
        deletions := trackedStats.deletions
        filesChanged := trackedStats.filesChanged + untrackedFiles.length }
    else trackedStats

/-- `captureWorkingDirectoryDiff` returns `stats := this.getDiffStats(...)`
unchanged (gitDiffManager.ts line 50); this is its stats component. -/
def captureWorkingDirectoryDiffStats (env : DiffEnv) (worktreePath : String) : GitDiffStats :=
  getDiffStats env worktreePath

/-- Specification-side reading of the untracked contribution: the sum over
untracked files of the readable ones' line counts (unreadable files
contribute nothing). -/
def untrackedAdditionsSpec (env : DiffEnv) (worktreePath : String) : Nat :=
  ((getUntrackedFiles env).map fun f =>
    match env.readFile (joinPath worktreePath (jsTrimS f)) with
    | none => 0
    | some content => jsLineCount content).sum

/-! ## `getCommitDiff` (single-revision diff)

`Except String` is the error channel to the caller: `.error` would model
the TypeScript function throwing.  The source catches the gateway failure
and returns an empty result, so every branch below is `.ok`. -/

structure ShowEnv where
  /-- `git show --format= --patch -m <hash>`; `.error msg` = command threw. -/
  showPatch : Except String String
  /-- `git show --stat --format= -m <hash>`; `none` = threw (own catch). -/
  showStat : Option String
  /-- `git show --name-only --format= <hash>`; `none` = threw (own catch). -/
  showNameOnly : Option String

/-- `GitDiffManager.getCommitStats`: last line of the trimmed stat output
through `parseDiffStats`; failure degrades to zeros. -/
def getCommitStats (env : ShowEnv) : GitDiffStats :=
  match env.showStat with
  | none => ⟨0, 0, 0⟩
  | some out => parseDiffStats (String.mk ((splitOnNL (jsTrim out.data)).getLastD []))

/-- `GitDiffManager.getCommitChangedFiles`: trimmed, split, blanks dropped;
failure degrades to the empty list. -/
def getCommitChangedFiles (env : ShowEnv) : List String :=
  match env.showNameOnly with
  | none => []
  | some out => ((splitOnNL (jsTrim out.data)).map String.mk).filter (fun f => f ≠ "")

/-- `GitDiffManager.getCommitDiff`: on gateway failure the catch block
returns an empty `GitDiffResult` (it does not rethrow). -/
def getCommitDiff (env : ShowEnv) (commitHash : String) : Except String GitDiffResult :=
  match env.showPatch with
  | .error _ =>
    .ok { diff := "", stats := ⟨0, 0, 0⟩, changedFiles := [],
          beforeHash := none, afterHash := none }
  | .ok diff =>
    .ok { diff := diff, stats := getCommitStats env,
          changedFiles := getCommitChangedFiles env,
          beforeHash := some (commitHash ++ "~1"), afterHash := some commitHash }

/-! ## `getCommitHistory` -/

/-- A parsed commit date: either the raw string accepted by `new Date`, or
the current-time fallback used when parsing fails. -/
inductive GDate
  | parsed (raw : String)
  | nowFallback
deriving DecidableEq, Repr

/-- `GitCommit` from `gitDiffManager.ts`. -/
structure GitCommit where
  hash : String
  message : String
  date : GDate
  author : String
  stats : GitDiffStats
deriving DecidableEq, Repr

/-- `GitDiffManager.parseNumstatOutput`: per line, split on whitespace; at
least three fields with numeric (or `-`) add/del columns count one file. -/
def parseNumstatOutput (lines : List (List Char)) : GitDiffStats :=
  lines.foldl
    (fun st l =>
      let parts := splitWsRuns (jsTrim l)
      if parts.length ≥ 3 then
        let a? := if parts.getD 0 [] = ['-'] then some 0 else jsParseInt (parts.getD 0 [])
        let d? := if parts.getD 1 [] = ['-'] then some 0 else jsParseInt (parts.getD 1 [])
        match a?, d? with
        | some a, some d =>
          ⟨st.additions + a, st.deletions + d, st.filesChanged + 1⟩
        | _, _ => st
      else st)
    ⟨0, 0, 0⟩

/-- Group the `git log --numstat` lines into (header line, following stat
lines) blocks: a line containing `|` starts a commit, non-blank lines after
it are its stat lines, anything before the first header is dropped. -/
def groupLog : List (List Char) → List (List Char × List (List Char)) × List (List Char)
  | [] => ([], [])
  | l :: rest =>
    let (blocks, pending) := groupLog rest
    if containsSeq ['|'] l then ((l, pending) :: blocks, [])
    else if (jsTrim l).isEmpty then (blocks, pending)
    else (blocks, l :: pending)

/-- Build a commit from a `hash|subject|date|author` header line (missing
fields, JS `undefined`, are modelled as `""`; the date oracle decides
`new Date` validity, invalid dates fall back to "now"). -/
def mkCommitFromHeader (validDate : String → Bool) (hl : List Char) : GitCommit :=
  let parts := splitOnChar '|' hl
  let dateRaw := String.mk (parts.getD 2 [])
  { hash := String.mk (parts.getD 0 [])
    message := String.mk (parts.getD 1 [])
    date := if validDate dateRaw then .parsed dateRaw else .nowFallback
    author := String.mk (parts.getD 3 [])
    stats := ⟨0, 0, 0⟩ }

/-- Consecutive (hash, trimmed full message) pairs of the NUL-delimited
stream, dropping a trailing unpaired element. -/
def pairUp : List (List Char) → List (String × String)
  | a :: b :: rest => (String.mk a, jsTrimS (String.mk b)) :: pairUp rest
  | _ => []

/-- Splice full messages back by hash: build the map from the NUL-delimited
stream (empty parts dropped by `filter(Boolean)`), then replace each
commit's subject when a non-empty full message exists. -/
def spliceFullMessages (fullOut : String) (commits : List GitCommit) : List GitCommit :=
  let parts := (splitOnChar '\x00' fullOut.data).filter (fun p => !p.isEmpty)
  let fullMap := (pairUp parts).foldl (fun m hv => alistSet hv.1 hv.2 m) []
  commits.map fun c =>
    match alistGet c.hash fullMap with
    | some full => if full.length > 0 then { c with message := full } else c
    | none => c

structure HistoryEnv where
  /-- First batched call (`git log --format="%H|%s|%ai|%an" --numstat ...`);
  `.error msg` = the command threw with message `msg`. -/
  logNumstat : Except String String
  /-- Second batched call (NUL-delimited hash + full message stream). -/
  logFull : Except String String
  /-- Oracle for JS `new Date(raw)` validity. -/
  validDate : String → Bool

/-- `GitDiffManager.getCommitHistory`: parse the numstat log into commits,
splice full messages (failure of the second call keeps subjects); on
failure of the first call, rethrow messages containing `fatal:`/`error:` as
a descriptive `Git error:`, otherwise fall back to the empty list. -/
def getCommitHistory (env : HistoryEnv) : Except String (List GitCommit) :=
  match env.logNumstat with
  | .error msg =>
    if containsSub msg "fatal:" || containsSub msg "error:" then
      .error ("Git error: " ++ msg)
    else .ok []
  | .ok logOutput =>
    let lines := splitOnNL (jsTrim logOutput.data)
    let commits := (groupLog lines).1.map fun bl =>
      { mkCommitFromHeader env.validDate bl.1 with stats := parseNumstatOutput bl.2 }
    match env.logFull with
    | .error _ => .ok commits
    | .ok fullOut => .ok (spliceFullMessages fullOut commits)

/-! ## Unified diff parser (`parseUnifiedDiff` in the diff viewer)

The section splitter models `diff.match(/diff --git[\s\S]*?(?=diff --git|$)/g)`:
text before the first `diff --git` belongs to no section, every section
starts at an occurrence of `diff --git` and runs to the next occurrence or
the end of the input. -/

/-- `type` field of `FileDiff`. -/
inductive ChangeType
  | added
  | deleted
  | modified
  | renamed
deriving DecidableEq, Repr

/-- `FileDiff` as produced by `parseUnifiedDiff`. -/
structure FileDiff where
  path : String
  oldPath : String
  oldValue : String
  newValue : String
  type : ChangeType
  isBinary : Bool
  additions : Nat
  deletions : Nat
  tooLarge : Bool
  approxSize : Nat
deriving DecidableEq, Repr

def diffGitHdr : List Char := "diff --git".data

/-- Continue splitting once inside a section (`acc` is the current section,
reversed); a fresh `diff --git` closes it and starts the next one. -/
def sectionsAux : List Char → List Char → List (List Char)
  | [], acc => [acc.reverse]
  | c :: rest, acc =>
    if diffGitHdr.isPrefixOf (c :: rest) then acc.reverse :: sectionsAux rest [c]
    else sectionsAux rest (c :: acc)

/-- All per-file sections of a raw diff text. -/
def diffSections : List Char → List (List Char)
  | [] => []
  | c :: rest =>
    if diffGitHdr.isPrefixOf (c :: rest) then sectionsAux rest [c]
    else diffSections rest

/-- Split at the first occurrence of `sep`, returning the parts before and
after it. -/
def splitFirstOn (sep : List Char) : List Char → Option (List Char × List Char)
  | [] => if sep.isEmpty then some ([], []) else none
  | c :: rest =>
    if sep.isPrefixOf (c :: rest) then some ([], (c :: rest).drop sep.length)
    else
      match splitFirstOn sep rest with
      | some (pre, post) => some (c :: pre, post)
      | none => none

def hdrA : List Char := "diff --git a/".data

/-- The two filename regexes
`/diff --git a\/(.*?) b\/(.*?)(?:\n|$)/` and `/diff --git a\/(.*?) b\/(.*)/`
(dot never matches a newline, the lazy groups stop at the first ` b/`, and
the second regex can only match where the first does): at the leftmost
occurrence of `diff --git a/` whose line also contains ` b/`, group 1 is
the text up to the first ` b/` and group 2 the rest of that line. -/
def findHeaderPaths : List Char → Option (List Char × List Char)
  | [] => none
  | c :: rest =>
    if hdrA.isPrefixOf (c :: rest) then
      let line := ((c :: rest).drop hdrA.length).takeWhile (fun ch => ch ≠ '\n')
      match splitFirstOn " b/".data line with
      | some (g1, g2) => some (g1, g2)
      | none => findHeaderPaths rest
    else findHeaderPaths rest

/-- The size-guard loop: count `+`/`-` line prefixes only (hunk markers
skipped first, everything else ignored). -/
def countBodyLines : List (List Char) → Nat × Nat
  | [] => (0, 0)
  | l :: rest =>
    let r := countBodyLines rest
    if ("@@".data).isPrefixOf l then r
    else if ("-".data).isPrefixOf l then (r.1, r.2 + 1)
    else if ("+".data).isPrefixOf l then (r.1 + 1, r.2)
    else r

/-- Accumulators of the full content walk. -/
structure ScanAcc where
  oldLines : List (List Char)
  newLines : List (List Char)
  additions : Nat
  deletions : Nat

/-- The full content walk over the lines from the first hunk marker:
`-` lines are deletions (marker stripped), `+` lines additions, space lines
context for both accumulators, `\` no-newline markers ignored, empty lines
empty in both accumulators, anything else ignored. -/
def scanBodyLines : List (List Char) → ScanAcc
  | [] => ⟨[], [], 0, 0⟩
  | l :: rest =>
    let r := scanBodyLines rest
    if ("@@".data).isPrefixOf l then r
    else if ("-".data).isPrefixOf l then
      ⟨l.drop 1 :: r.oldLines, r.newLines, r.additions, r.deletions + 1⟩
    else if ("+".data).isPrefixOf l then
      ⟨r.oldLines, l.drop 1 :: r.newLines, r.additions + 1, r.deletions⟩
    else if (" ".data).isPrefixOf l then
      ⟨l.drop 1 :: r.oldLines, l.drop 1 :: r.newLines, r.additions, r.deletions⟩
    else if ("\\".data).isPrefixOf l then r
    else if l.isEmpty then ⟨[] :: r.oldLines, [] :: r.newLines, r.additions, r.deletions⟩
    else r

/-- `lines.join('\n')`. -/
def joinNL : List (List Char) → List Char
  | [] => []
  | [l] => l
  | l :: rest => l ++ '\n' :: joinNL rest

/-- One per-file section of `parseUnifiedDiff`: `none` exactly when no
filename pattern matches the section (the `continue` with a diagnostic). -/
def parseSection (maxBytes : Nat) (sec : List Char) : Option FileDiff :=
  match findHeaderPaths sec with
  | none => none
  | some (oldName, newName) =>
    let isBin := containsSeq "Binary files".data sec || containsSeq "GIT binary patch".data sec
    let approxSize := sec.length
    let ty : ChangeType :=
      if containsSeq "new file mode".data sec then .added
      else if containsSeq "deleted file mode".data sec then .deleted
      else if containsSeq "rename from".data sec && containsSeq "rename to".data sec then .renamed
      else .modified
    if isBin then
      some { path := String.mk newName, oldPath := String.mk oldName,
             oldValue := "", newValue := "", type := ty, isBinary := true,
             additions := 0, deletions := 0, tooLarge := false, approxSize }
    else
      let body := (splitOnNL sec).dropWhile (fun l => !("@@".data).isPrefixOf l)
      match body with
      | [] =>
        some { path := String.mk newName, oldPath := String.mk oldName,
               oldValue := "", newValue := "", type := ty, isBinary := false,
               additions := 0, deletions := 0, tooLarge := false, approxSize }
      | _ =>
        if approxSize > maxBytes then
          let r := countBodyLines body
          some { path := String.mk newName, oldPath := String.mk oldName,
                 oldValue := "", newValue := "", type := ty, isBinary := false,
                 additions := r.1, deletions := r.2, tooLarge := true, approxSize }
        else
          let r := scanBodyLines body
          some { path := String.mk newName, oldPath := String.mk oldName,
                 oldValue := if ty = .added then "" else String.mk (joinNL r.oldLines),
                 newValue := if ty = .deleted then "" else String.mk (joinNL r.newLines),
                 type := ty, isBinary := false,
                 additions := r.additions, deletions := r.deletions,
                 tooLarge := false, approxSize }

/-- `parseUnifiedDiff(diff, maxBytes)`: blank input gives no files, each
section is parsed independently, sections without a parseable filename
header are skipped. -/
def parseUnifiedDiff (diff : String) (maxBytes : Nat) : List FileDiff :=
  if (jsTrim diff.data).isEmpty then []
  else (diffSections diff.data).filterMap (parseSection maxBytes)

/-! ## Working-tree change watcher (`gitFileWatcher.ts`)

The manager's mutable maps become explicit state; `fs.watch` handles are
tracked by a fake-factory pair of counters (`opened` successful `watch`
calls, `closed` `close` calls), and timers keep the delay they were armed
with.  Gateway results enter through parameters (`watchOk`, `outcome`). -/

def strStarts (pre s : String) : Bool := pre.data.isPrefixOf s.data

def strEnds (suf s : String) : Bool := suf.data.isSuffixOf s.data

/-- One iteration of the `shouldIgnoreFile` pattern loop, branch for branch
(directory / extension / editor-temp / backup / exact). -/
def matchIgnorePattern (pattern filename : String) : Bool :=
  if strEnds "/" pattern then
    strStarts pattern filename || containsSub filename ("/" ++ pattern)
  else if strStarts "*." pattern then
    strEnds (String.mk (pattern.data.drop 1)) filename
  else if strStarts ".#" pattern || strStarts "#" pattern then
    let basename := String.mk ((splitOnChar '/' filename.data).getLastD [])
    strStarts ".#" basename || (strStarts "#" basename && strEnds "#" basename)
  else if strEnds "~" pattern then
    strEnds "~" filename
  else
    filename = pattern || strEnds ("/" ++ pattern) filename

/-- `IGNORE_PATTERNS`. -/
def ignorePatterns : List String :=
  [".git/", "node_modules/", ".DS_Store", "thumbs.db", "*.swp", "*.swo", "*~", ".#*", "#*#"]

def shouldIgnoreFile (filename : String) : Bool :=
  ignorePatterns.any (fun p => matchIgnorePattern p filename)

/-- A `WatchedSession` (the unread wall-clock `lastModified` field is
omitted; every stored session owns a watch handle). -/
structure SessionS where
  worktreePath : String
  pendingRefresh : Bool
deriving DecidableEq, Repr

/-- The watcher manager's state. -/
structure WatcherState where
  sessions : List (String × SessionS)
  timers : List (String × Nat)
  errorCounts : List (String × Nat)
  opened : Nat
  closed : Nat
deriving DecidableEq, Repr

def initW : WatcherState := ⟨[], [], [], 0, 0⟩

/-- `stopWatching`: close the session's handle, drop the session, clear its
pending timer; a no-op for unknown ids. -/
def stopWatching (sessionId : String) (s : WatcherState) : WatcherState :=
  match alistGet sessionId s.sessions with
  | none => s
  | some _ =>
    { s with sessions := alistDel sessionId s.sessions
             closed := s.closed + 1
             timers := alistDel sessionId s.timers }

/-- `startWatching`: always stop any existing session first, then open a
fresh watch handle (`watchOk = false` models `fs.watch` throwing, in which
case no session is stored). -/
def startWatching (sessionId worktreePath : String) (watchOk : Bool) (s : WatcherState) :
    WatcherState :=
  let s1 := stopWatching sessionId s
  if watchOk then
    { s1 with sessions := alistSet sessionId ⟨worktreePath, false⟩ s1.sessions
              opened := s1.opened + 1 }
  else s1

/-- `stopAll`: stop every watched session. -/
def stopAll (s : WatcherState) : WatcherState :=
  (s.sessions.map Prod.fst).foldl (fun st id => stopWatching id st) s

/-- `scheduleRefreshCheckWithDelay`: re-arm the session's single timer slot
(an existing timer is cleared first). -/
def scheduleRefreshCheckWithDelay (sessionId : String) (delayMs : Nat) (s : WatcherState) :
    WatcherState :=
  { s with timers := alistSet sessionId delayMs s.timers }

/-- `handleFileChange`: ignored filenames do nothing; otherwise mark the
session pending and debounce (1500 ms). -/
def handleFileChange (sessionId filename : String) (s : WatcherState) : WatcherState :=
  if shouldIgnoreFile filename then s
  else
    match alistGet sessionId s.sessions with
    | none => s
    | some sess =>
      scheduleRefreshCheckWithDelay sessionId 1500
        { s with sessions := alistSet sessionId { sess with pendingRefresh := true } s.sessions }

/-- `getBackoffDelay`: bump the failure streak and return
`min(BASE * 2^(streak-1), MAX)` with BASE = 1000, MAX = 30000. -/
def getBackoffDelay (sessionId : String) (s : WatcherState) : Nat × WatcherState :=
  let count := (alistGet sessionId s.errorCounts).getD 0 + 1
  (min (1000 * 2 ^ (count - 1)) 30000,
   { s with errorCounts := alistSet sessionId count s.errorCounts })

/-- `resetBackoff`: forget the streak. -/
def resetBackoff (sessionId : String) (s : WatcherState) : WatcherState :=
  { s with errorCounts := alistDel sessionId s.errorCounts }

/-- Write a session's `pendingRefresh` flag. -/
def setPending (sessionId : String) (b : Bool) (s : WatcherState) : WatcherState :=
  match alistGet sessionId s.sessions with
  | none => s
  | some sess =>
    { s with sessions := alistSet sessionId { sess with pendingRefresh := b } s.sessions }

/-- `performRefreshCheck`: `outcome` is the `checkIfRefreshNeeded` result
(`none` = undefined/transient, the catch branch behaves identically).
Returns the new state and emitted `needs-refresh` session ids. -/
def performRefreshCheck (sessionId : String) (outcome : Option Bool) (s : WatcherState) :
    WatcherState × List String :=
  match alistGet sessionId s.sessions with
  | none => (s, [])
  | some sess =>
    if !sess.pendingRefresh then (s, [])
    else
      let s0 := setPending sessionId false s
      match outcome with
      | none =>
        let (delay, s1) := getBackoffDelay sessionId s0
        (scheduleRefreshCheckWithDelay sessionId delay (setPending sessionId true s1), [])
      | some needsRefresh =>
        let s1 := resetBackoff sessionId s0
        if needsRefresh then (s1, [sessionId]) else (s1, [])

/-- A timer firing: the `setTimeout` callback deletes the timer entry and
runs the refresh check. -/
def fireTimer (sessionId : String) (outcome : Option Bool) (s : WatcherState) :
    WatcherState × List String :=
  match alistGet sessionId s.timers with
  | none => (s, [])
  | some _ =>
    performRefreshCheck sessionId outcome { s with timers := alistDel sessionId s.timers }

/-- State after `n` consecutive inconclusive checks (each backoff timer
firing into another inconclusive check). -/
def afterNFails (sessionId : String) (s : WatcherState) : Nat → WatcherState
  | 0 => s
  | n + 1 => (fireTimer sessionId none (afterNFails sessionId s n)).1

/-- The externally triggerable transitions of the manager. -/
inductive WOp
  | start (sessionId worktreePath : String) (watchOk : Bool)
  | stop (sessionId : String)
  | stopAllW
  | fileEvent (sessionId filename : String)
  | timerFire (sessionId : String) (outcome : Option Bool)

def stepW (s : WatcherState) : WOp → WatcherState
  | .start sessionId wt ok => startWatching sessionId wt ok s
  | .stop sessionId => stopWatching sessionId s
  | .stopAllW => stopAll s
  | .fileEvent sessionId f => handleFileChange sessionId f s
  | .timerFire sessionId oc => (fireTimer sessionId oc s).1

/-- Run an operation sequence from the fresh manager. -/
def runW (ops : List WOp) : WatcherState := ops.foldl stepW initW

/-! ## `checkIfRefreshNeeded` -/

/-- The gateway calls and filesystem probes of one check, as data.  `none`
models the call throwing; the two `--quiet` probes are exit-code booleans
(`false` = non-zero exit = changes present), not failures. -/
structure CheckEnv where
  /-- `git rev-parse --is-inside-work-tree` output; `none` = threw. -/
  insideWorkTree : Option String
  /-- `git rev-parse --git-dir` output; `none` = threw. -/
  gitDirRaw : Option String
  /-- `fs.existsSync`. -/
  fileExists : String → Bool
  /-- `git update-index --refresh --ignore-submodules` succeeded. -/
  updateIndexOk : Bool
  /-- `git diff-files --quiet` exited 0 (no unstaged changes). -/
  diffFilesQuiet : Bool
  /-- `git diff-index --cached --quiet HEAD` exited 0 (no staged changes). -/
  diffIndexQuiet : Bool
  /-- `git ls-files --others --exclude-standard` output; `none` = threw. -/
  untrackedOutput : Option String

/-- The metadata directory resolved from the (trimmed) `--git-dir` output:
absolute output is used as-is, relative output is joined to the worktree. -/
def resolvedGitDir (worktreePath raw : String) : String :=
  let r := jsTrimS raw
  if isAbsPath r then r else joinPath worktreePath r

/-- `checkIfRefreshNeeded`: `some true` = changes present, `some false` =
clean, `none` = inconclusive (undefined), short-circuiting at the first
transient condition. -/
def checkIfRefreshNeeded (env : CheckEnv) (worktreePath : String) : Option Bool :=
  match env.insideWorkTree with
  | none => none
  | some insideOut =>
    if jsTrimS insideOut ≠ "true" then none
    else
      match env.gitDirRaw with
      | none => none
      | some raw =>
        if env.fileExists (joinPath (resolvedGitDir worktreePath raw) "index.lock") then none
        else if !env.updateIndexOk then none
        else if !env.diffFilesQuiet then some true
        else if !env.diffIndexQuiet then some true
        else
          match env.untrackedOutput with
          | none => none
          | some untrackedOut =>
            if jsTrimS untrackedOut ≠ "" then some true else some false

/-! ## Claim C10: `combineDiffs` on the empty list -/

/-- C10: `combineDiffs []` does not raise: it returns empty raw text, zero
stats, an empty changed-file list, and absent before/after revisions, the
first/last element accesses being guarded by optional chaining. -/
theorem combineDiffs_empty_c10 :
    combineDiffs [] =
      { diff := "", stats := ⟨0, 0, 0⟩, changedFiles := [],
        beforeHash := none, afterHash := none } := by
  rfl

/-! ## Claim C3: `parseDiffStats` -/

/-- C3: `parseDiffStats` takes the last line of the trimmed input (the last
non-blank line), extracts the optional files/insertions/deletions groups
with absent groups defaulting to 0, never raises (it is a total function),
and maps the three specification examples as claimed. -/
theorem parseStatSummary_c3 :
    parseDiffStats "3 files changed, 45 insertions(+), 12 deletions(-)" = ⟨45, 12, 3⟩ ∧
    parseDiffStats "" = ⟨0, 0, 0⟩ ∧
    parseDiffStats "1 file changed, 2 insertions(+)" = ⟨2, 0, 1⟩ ∧
    ∀ s : String, parseDiffStats s = statsOfLine ((splitOnNL (jsTrim s.data)).getLastD []) :=
  ⟨by decide, by decide, by decide, fun _ => rfl⟩

/-! ## Claim C4: the parser is total and skips unparseable sections -/

theorem length_filterMap_le_self {α β : Type} (f : α → Option β) (l : List α) :
    (l.filterMap f).length ≤ l.length := by
  induction l with
  | nil => simp
  | cons a t ih => cases h : f a <;> simp [List.filterMap_cons, h] <;> omega

/-- C4: the unified-diff parser never raises (it is a total function of the
input string), empty input yields the empty sequence, each input section
yields at most one record (unmatched headers are skipped, reducing the
count), and on a concrete input with one well-formed and one
header-unparseable section it returns exactly the parseable one. -/
theorem parseUnifiedDiff_total_c4 :
    (∀ maxBytes : Nat, parseUnifiedDiff "" maxBytes = []) ∧
    (∀ (diff : String) (maxBytes : Nat),
      (parseUnifiedDiff diff maxBytes).length ≤ (diffSections diff.data).length) ∧
    parseUnifiedDiff
        "diff --git a/good.txt b/good.txt\n@@ -1 +1 @@\n-old\n+new\ndiff --git broken-header\n+x\n"
        1000000
      = [{ path := "good.txt", oldPath := "good.txt", oldValue := "old\n", newValue := "new\n",
           type := .modified, isBinary := false, additions := 1, deletions := 1,
           tooLarge := false, approxSize := 55 }] := by
  refine ⟨fun _ => rfl, fun diff maxBytes => ?_, by decide⟩
  unfold parseUnifiedDiff
  split
  · simp
  · exact length_filterMap_le_self _ _

/-! ## Claim C5: binary sections have zero stats -/

theorem parseSection_binary_zero {maxBytes : Nat} {sec : List Char} {f : FileDiff}
    (h : parseSection maxBytes sec = some f) (hb : f.isBinary = true) :
    f.additions = 0 ∧ f.deletions = 0 := by
  simp only [parseSection] at h
  split at h
  · exact absurd h (by simp)
  · split at h
    · cases h
      exact ⟨rfl, rfl⟩
    · split at h
      · cases h
        simp at hb
      · split at h
        · cases h
          simp at hb
        · cases h
          simp at hb

/-- C5: every record the parser returns with `isBinary = true` has zero
additions and deletions (binary sections skip content scanning). -/
theorem parser_binary_zero_c5 :
    ∀ (diff : String) (maxBytes : Nat) (f : FileDiff),
      f ∈ parseUnifiedDiff diff maxBytes → f.isBinary = true →
      f.additions = 0 ∧ f.deletions = 0 := by
  intro diff maxBytes f hmem hbin
  unfold parseUnifiedDiff at hmem
  split at hmem
  · simp at hmem
  · obtain ⟨sec, -, hsec⟩ := List.mem_filterMap.mp hmem
    exact parseSection_binary_zero hsec hbin

def binExample : String :=
  "diff --git a/img.png b/img.png\nBinary files a/img.png and b/img.png differ\n"

def binFile : FileDiff :=
  { path := "img.png", oldPath := "img.png", oldValue := "", newValue := "",
    type := .modified, isBinary := true, additions := 0, deletions := 0,
    tooLarge := false, approxSize := 75 }

/-- Witness for C5 at a concrete binary diff section. -/
theorem parser_binary_zero_c5_witness : binFile.additions = 0 ∧ binFile.deletions = 0 :=
  parser_binary_zero_c5 binExample 100 binFile (by decide) (by decide)

/-! ## Claim C2: `combineDiffs` on non-empty input -/

theorem mem_addUnique {x f : String} {acc : List String} :
    x ∈ addUnique acc f ↔ x ∈ acc ∨ x = f := by
  by_cases h : f ∈ acc
  · simp only [addUnique, if_pos h]
    constructor
    · exact Or.inl
    · rintro (hx | rfl)
      · exact hx
      · exact h
  · simp [addUnique, if_neg h]

theorem addUnique_nodup {acc : List String} (h : acc.Nodup) (f : String) :
    (addUnique acc f).Nodup := by
  by_cases hf : f ∈ acc
  · simpa [addUnique, if_pos hf] using h
  · simp only [addUnique, if_neg hf]
    rw [List.nodup_append]
    exact ⟨h, List.nodup_singleton f, by simpa [List.disjoint_singleton] using hf⟩

theorem foldl_addUnique_nodup (l : List String) (acc : List String) (h : acc.Nodup) :
    (l.foldl addUnique acc).Nodup := by
  induction l generalizing acc with
  | nil => simpa
  | cons a t ih => exact ih _ (addUnique_nodup h a)

theorem mem_foldl_addUnique (x : String) (l acc : List String) :
    x ∈ l.foldl addUnique acc ↔ x ∈ acc ∨ x ∈ l := by
  induction l generalizing acc with
  | nil => simp
  | cons a t ih =>
    simp only [List.foldl_cons, ih, mem_addUnique, List.mem_cons]
    tauto

theorem collectFiles_nodup (ds : List GitDiffResult) (acc : List String) (h : acc.Nodup) :
    (ds.foldl (fun acc d => d.changedFiles.foldl addUnique acc) acc).Nodup := by
  induction ds generalizing acc with
  | nil => simpa
  | cons a t ih => exact ih _ (foldl_addUnique_nodup _ _ h)

theorem mem_collectFiles (x : String) (ds : List GitDiffResult) (acc : List String) :
    x ∈ ds.foldl (fun acc d => d.changedFiles.foldl addUnique acc) acc ↔
      x ∈ acc ∨ ∃ d ∈ ds, x ∈ d.changedFiles := by
  induction ds generalizing acc with
  | nil => simp
  | cons a t ih =>
    simp only [List.foldl_cons, ih, mem_foldl_addUnique, List.mem_cons]
    constructor
    · rintro ((hx | hx) | ⟨d, hd, hx⟩)
      · exact Or.inl hx
      · exact Or.inr ⟨a, Or.inl rfl, hx⟩
      · exact Or.inr ⟨d, Or.inr hd, hx⟩
    · rintro (hx | ⟨d, rfl | hd, hx⟩)
      · exact Or.inl (Or.inl hx)
      · exact Or.inl (Or.inr hx)
      · exact Or.inr ⟨d, hd, hx⟩

theorem foldl_add_eq_sum (g : GitDiffResult → Nat) (l : List GitDiffResult) (n : Nat) :
    l.foldl (fun sum d => sum + g d) n = n + (l.map g).sum := by
  induction l generalizing n with
  | nil => simp
  | cons a t ih => simp [ih, Nat.add_assoc]

/-- C2: for a non-empty input list, `combineDiffs` joins the raw texts with
blank-line separators, sums additions and deletions, reports as
`filesChanged` the size of a duplicate-free list containing exactly the
union of the inputs' changed files, and takes `beforeHash` from the first
input and `afterHash` from the last. -/
theorem combineDiffs_c2 (diffs : List GitDiffResult) (d0 dl : GitDiffResult)
    (h0 : diffs.head? = some d0) (hl : diffs.getLast? = some dl) :
    (combineDiffs diffs).diff = String.intercalate "\n\n" (diffs.map (·.diff)) ∧
    (combineDiffs diffs).stats.additions = (diffs.map (·.stats.additions)).sum ∧
    (combineDiffs diffs).stats.deletions = (diffs.map (·.stats.deletions)).sum ∧
    (combineDiffs diffs).stats.filesChanged = (combineDiffs diffs).changedFiles.length ∧
    (combineDiffs diffs).changedFiles.Nodup ∧
    (∀ f, f ∈ (combineDiffs diffs).changedFiles ↔ ∃ d ∈ diffs, f ∈ d.changedFiles) ∧
    (combineDiffs diffs).beforeHash = d0.beforeHash ∧
    (combineDiffs diffs).afterHash = dl.afterHash := by
  simp only [combineDiffs]
  refine ⟨trivial, ?_, ?_, trivial, collectFiles_nodup _ _ List.nodup_nil, ?_, ?_, ?_⟩
  · simpa using foldl_add_eq_sum (fun d => d.stats.additions) diffs 0
  · simpa using foldl_add_eq_sum (fun d => d.stats.deletions) diffs 0
  · intro f
    simpa using mem_collectFiles f diffs []
  · simp [h0]
  · simp [hl]

def exD1 : GitDiffResult :=
  { diff := "t1", stats := ⟨3, 1, 2⟩, changedFiles := ["a", "b"],
    beforeHash := some "h0", afterHash := some "h1" }

def exD2 : GitDiffResult :=
  { diff := "t2", stats := ⟨2, 0, 2⟩, changedFiles := ["b", "c"],
    beforeHash := some "h1", afterHash := some "h2" }

/-- Witness for C2 at the specification's two-result example. -/
theorem combineDiffs_c2_witness :
    (combineDiffs [exD1, exD2]).diff = String.intercalate "\n\n" ([exD1, exD2].map (·.diff)) ∧
    (combineDiffs [exD1, exD2]).stats.additions = ([exD1, exD2].map (·.stats.additions)).sum ∧
    (combineDiffs [exD1, exD2]).stats.deletions = ([exD1, exD2].map (·.stats.deletions)).sum ∧
    (combineDiffs [exD1, exD2]).stats.filesChanged = (combineDiffs [exD1, exD2]).changedFiles.length ∧
    (combineDiffs [exD1, exD2]).changedFiles.Nodup ∧
    (∀ f, f ∈ (combineDiffs [exD1, exD2]).changedFiles ↔ ∃ d ∈ [exD1, exD2], f ∈ d.changedFiles) ∧
    (combineDiffs [exD1, exD2]).beforeHash = exD1.beforeHash ∧
    (combineDiffs [exD1, exD2]).afterHash = exD2.afterHash :=
  combineDiffs_c2 [exD1, exD2] exD1 exD2 rfl (by decide)

/-! ## Claim C6: working-tree stats = tracked diffstat + untracked additions -/

theorem getUntrackedFiles_ok (env : DiffEnv) :
    ∀ f ∈ getUntrackedFiles env, blankStr f = false := by
  intro f hf
  unfold getUntrackedFiles at hf
  rcases henv : env.untrackedOutput with _ | out <;> rw [henv] at hf <;> dsimp only at hf
  · simp at hf
  · split at hf
    · simp at hf
    · have hp := (List.mem_filter.mp hf).2
      simp only [Bool.and_eq_true, decide_eq_true_eq] at hp
      simp [blankStr, hp.1, hp.2]

theorem untracked_fold_eq (env : DiffEnv) (wt : String) (files : List String) (n : Nat)
    (hok : ∀ f ∈ files, blankStr f = false) :
    files.foldl
        (fun acc file =>
          if blankStr file then acc
          else
            match env.readFile (joinPath wt (jsTrimS file)) with
            | none => acc
            | some content => acc + jsLineCount content) n
      = n + ((files.map fun f =>
          match env.readFile (joinPath wt (jsTrimS f)) with
          | none => 0
          | some content => jsLineCount content)).sum := by
  induction files generalizing n with
  | nil => simp
  | cons a t ih =>
    have ha := hok a (List.mem_cons_self a t)
    have ht := fun f hf => hok f (List.mem_cons_of_mem a hf)
    simp only [List.foldl_cons, List.map_cons, List.sum_cons, ha, Bool.false_eq_true,
      if_false]
    cases hr : env.readFile (joinPath wt (jsTrimS a)) with
    | none => simp [hr, ih n ht]
    | some content => simp [hr, ih _ ht, Nat.add_assoc]

def exampleDiffEnv : DiffEnv :=
  { statOutput := some " 1 file changed, 3 insertions(+), 1 deletion(-)"
    untrackedOutput := some "notes.txt\n"
    readFile := fun p => if p = "/wt/notes.txt" then some "a\nb\nc\nd\ne" else none }

/-- C6: whenever the tracked diffstat command succeeds, the working-tree
stats equal the parsed tracked stats plus each readable untracked file's
line count added to additions only (deletions unchanged), with every
untracked file (readable or not) counted in `filesChanged`; on the
concrete end-to-end example (3 insertions and 1 deletion tracked, one
untracked 5-line file) this gives `{additions 8, deletions 1,
filesChanged 2}`. -/
theorem workingTreeStats_c6 :
    (∀ (env : DiffEnv) (wt out : String), env.statOutput = some out →
      captureWorkingDirectoryDiffStats env wt =
        { additions := (parseDiffStats out).additions + untrackedAdditionsSpec env wt,
          deletions := (parseDiffStats out).deletions,
          filesChanged := (parseDiffStats out).filesChanged + (getUntrackedFiles env).length }) ∧
    captureWorkingDirectoryDiffStats exampleDiffEnv "/wt" = ⟨8, 1, 2⟩ := by
  constructor
  · intro env wt out hout
    unfold captureWorkingDirectoryDiffStats getDiffStats
    rw [hout]
    simp only
    split
    · rw [untracked_fold_eq env wt _ 0 (getUntrackedFiles_ok env)]
      simp [untrackedAdditionsSpec]
    · next hlen =>
      have hnil : getUntrackedFiles env = [] := by
        cases hu : getUntrackedFiles env with
        | nil => rfl
        | cons a t => exact absurd (by rw [hu]; simp) hlen
      simp [untrackedAdditionsSpec, hnil]
  · decide

/-- Witness for C6 instantiating the tracked-stats hypothesis at the
concrete example environment. -/
theorem workingTreeStats_c6_witness :
    captureWorkingDirectoryDiffStats exampleDiffEnv "/wt" =
      { additions := (parseDiffStats " 1 file changed, 3 insertions(+), 1 deletion(-)").additions
          + untrackedAdditionsSpec exampleDiffEnv "/wt",
        deletions := (parseDiffStats " 1 file changed, 3 insertions(+), 1 deletion(-)").deletions,
        filesChanged := (parseDiffStats " 1 file changed, 3 insertions(+), 1 deletion(-)").filesChanged
          + (getUntrackedFiles exampleDiffEnv).length } :=
  workingTreeStats_c6.1 exampleDiffEnv "/wt" " 1 file changed, 3 insertions(+), 1 deletion(-)" rfl

/-! ## Claim C9: failure policy of explicit artifact fetches -/

def failShowEnv : ShowEnv :=
  { showPatch := .error "fatal: bad object abc123", showStat := none, showNameOnly := none }

/-- C9 counterexample: when every gateway call of `getCommitDiff` fails,
the function returns an ordinary empty `GitDiffResult` (`.ok` with empty
text, zero stats, no files) instead of propagating a descriptive error, as
the claim asserts. -/
theorem getCommitDiff_swallows_c9_counterexample :
    getCommitDiff failShowEnv "abc123" =
      .ok { diff := "", stats := ⟨0, 0, 0⟩, changedFiles := [],
            beforeHash := none, afterHash := none } := rfl

/-- C9 amended: `getRevisionDiff` swallows total gateway failure and
returns an empty `DiffResult` rather than propagating an error;
`getCommitHistory` propagates a descriptive `Git error:` exactly when the
underlying failure message contains `fatal:` or `error:`, and returns the
empty sequence both for other failures and for the no-results case. -/
theorem fetchFailurePolicy_c9_amended :
    (∀ (env : ShowEnv) (hash msg : String), env.showPatch = .error msg →
      getCommitDiff env hash =
        .ok { diff := "", stats := ⟨0, 0, 0⟩, changedFiles := [],
              beforeHash := none, afterHash := none }) ∧
    (∀ (env : HistoryEnv) (msg : String), env.logNumstat = .error msg →
      (containsSub msg "fatal:" || containsSub msg "error:") = true →
      getCommitHistory env = .error ("Git error: " ++ msg)) ∧
    (∀ (env : HistoryEnv) (msg : String), env.logNumstat = .error msg →
      (containsSub msg "fatal:" || containsSub msg "error:") = false →
      getCommitHistory env = .ok []) ∧
    (∀ env : HistoryEnv, env.logNumstat = .ok "" → getCommitHistory env = .ok []) := by
  refine ⟨?_, ?_, ?_, ?_⟩
  · intro env hash msg h
    unfold getCommitDiff
    rw [h]
  · intro env msg h hc
    unfold getCommitHistory
    rw [h]
    simp [hc]
  · intro env msg h hc
    unfold getCommitHistory
    rw [h]
    simp [hc]
  · intro env h
    unfold getCommitHistory
    rw [h]
    cases henv : env.logFull <;>
      simp [henv, spliceFullMessages, groupLog, jsTrim, dropWs, splitOnNL, containsSeq]

def fatalHistoryEnv : HistoryEnv :=
  { logNumstat := .error "fatal: bad revision", logFull := .ok "", validDate := fun _ => false }

/-- Witness for C9 at concrete failing environments. -/
theorem fetchFailurePolicy_c9_witness :
    getCommitDiff failShowEnv "abc123" =
      .ok { diff := "", stats := ⟨0, 0, 0⟩, changedFiles := [],
            beforeHash := none, afterHash := none } ∧
    getCommitHistory fatalHistoryEnv = .error "Git error: fatal: bad revision" := by
  constructor
  · exact fetchFailurePolicy_c9_amended.1 failShowEnv "abc123" "fatal: bad object abc123" rfl
  · have h := fetchFailurePolicy_c9_amended.2.1 fatalHistoryEnv "fatal: bad revision" rfl (by decide)
    rw [h]
    rfl

/-! ## Claim C7: at most one session / open handle per id -/

theorem alistGet_eq_none_iff {α : Type} (k : String) (l : List (String × α)) :
    alistGet k l = none ↔ ∀ p ∈ l, p.1 ≠ k := by
  induction l with
  | nil => simp [alistGet]
  | cons p rest ih => by_cases h : p.1 = k <;> simp [alistGet, h, ih]

theorem alistDel_eq_self {α : Type} {k : String} {l : List (String × α)}
    (h : ∀ p ∈ l, p.1 ≠ k) : alistDel k l = l :=
  List.filter_eq_self.mpr (fun p hp => by simpa using h p hp)

theorem alistGet_del_same {α : Type} (k : String) (l : List (String × α)) :
    alistGet k (alistDel k l) = none := by
  rw [alistGet_eq_none_iff]
  intro p hp
  simpa using (List.mem_filter.mp hp).2

theorem alistDel_keys_nodup {α : Type} {k : String} {l : List (String × α)}
    (hn : (l.map Prod.fst).Nodup) : ((alistDel k l).map Prod.fst).Nodup :=
  List.Nodup.sublist ((List.filter_sublist l).map Prod.fst) hn

theorem alistDel_length {α : Type} {k : String} {l : List (String × α)} {v : α}
    (hn : (l.map Prod.fst).Nodup) (hget : alistGet k l = some v) :
    l.length = (alistDel k l).length + 1 := by
  induction l with
  | nil => simp [alistGet] at hget
  | cons p rest ih =>
    rw [List.map_cons, List.nodup_cons] at hn
    by_cases h : p.1 = k
    · have hrest : ∀ q ∈ rest, q.1 ≠ k := by
        intro q hq hk
        exact hn.1 (by rw [h, ← hk]; exact List.mem_map_of_mem Prod.fst hq)
      have hdel : alistDel k (p :: rest) = alistDel k rest := by
        rw [alistDel, alistDel, List.filter_cons]
        simp [h]
      rw [hdel, alistDel_eq_self hrest, List.length_cons]
    · have hget' : alistGet k rest = some v := by simpa [alistGet, h] using hget
      have hr := ih hn.2 hget'
      have hdel : alistDel k (p :: rest) = p :: alistDel k rest := by
        rw [alistDel, alistDel, List.filter_cons]
        simp [h]
      rw [hdel, List.length_cons, List.length_cons]
      omega

theorem alistSet_keys_nodup {α : Type} {l : List (String × α)} (k : String) (v : α)
    (hn : (l.map Prod.fst).Nodup) : ((alistSet k v l).map Prod.fst).Nodup := by
  rw [alistSet, List.map_cons, List.nodup_cons]
  refine ⟨?_, alistDel_keys_nodup hn⟩
  intro hmem
  obtain ⟨p, hp, hpk⟩ := List.mem_map.mp hmem
  have hne := (List.mem_filter.mp hp).2
  simp at hne
  exact hne hpk

theorem alistSet_length_some {α : Type} {k : String} {l : List (String × α)} {v' : α}
    (hn : (l.map Prod.fst).Nodup) (hget : alistGet k l = some v') (v : α) :
    (alistSet k v l).length = l.length := by
  have := alistDel_length hn hget
  simp only [alistSet, List.length_cons]
  omega

theorem alistSet_length_none {α : Type} {k : String} {l : List (String × α)}
    (hget : alistGet k l = none) (v : α) :
    (alistSet k v l).length = l.length + 1 := by
  rw [alistSet, alistDel_eq_self ((alistGet_eq_none_iff k l).mp hget)]
  simp

/-- The handle invariant: session ids are unique, and the open handles
(successful `watch` calls not yet closed) are exactly the live sessions. -/
def WInv (s : WatcherState) : Prop :=
  (s.sessions.map Prod.fst).Nodup ∧ s.opened = s.closed + s.sessions.length

theorem initW_WInv : WInv initW := ⟨List.nodup_nil, rfl⟩

theorem WInv_of_eq {s t : WatcherState} (h : WInv s) (hs : t.sessions = s.sessions)
    (ho : t.opened = s.opened) (hc : t.closed = s.closed) : WInv t := by
  rw [WInv, hs, ho, hc]
  exact h

theorem stopWatching_WInv {s : WatcherState} (h : WInv s) (sessionId : String) :
    WInv (stopWatching sessionId s) := by
  unfold stopWatching
  cases hget : alistGet sessionId s.sessions with
  | none => exact h
  | some sess =>
    refine ⟨alistDel_keys_nodup h.1, ?_⟩
    have hlen := alistDel_length h.1 hget
    have h2 := h.2
    dsimp only
    omega

theorem stopWatching_sessions_get_none (sessionId : String) (s : WatcherState) :
    alistGet sessionId (stopWatching sessionId s).sessions = none := by
  unfold stopWatching
  cases hget : alistGet sessionId s.sessions with
  | none => exact hget
  | some _ => exact alistGet_del_same sessionId s.sessions

theorem startWatching_WInv {s : WatcherState} (h : WInv s) (sessionId wt : String) (ok : Bool) :
    WInv (startWatching sessionId wt ok s) := by
  have h1 := stopWatching_WInv h sessionId
  unfold startWatching
  cases ok with
  | false => exact h1
  | true =>
    rw [if_pos rfl]
    refine ⟨alistSet_keys_nodup _ _ h1.1, ?_⟩
    have hlen := alistSet_length_none (stopWatching_sessions_get_none sessionId s)
      (⟨wt, false⟩ : SessionS)
    have h2 := h1.2
    dsimp only
    omega

theorem setPending_WInv {s : WatcherState} (h : WInv s) (sessionId : String) (b : Bool) :
    WInv (setPending sessionId b s) := by
  unfold setPending
  cases hget : alistGet sessionId s.sessions with
  | none => exact h
  | some sess =>
    refine ⟨alistSet_keys_nodup _ _ h.1, ?_⟩
    have hlen := alistSet_length_some h.1 hget ({ sess with pendingRefresh := b } : SessionS)
    have h2 := h.2
    dsimp only
    omega

theorem handleFileChange_WInv {s : WatcherState} (h : WInv s) (sessionId filename : String) :
    WInv (handleFileChange sessionId filename s) := by
  unfold handleFileChange scheduleRefreshCheckWithDelay
  split
  · exact h
  · cases hget : alistGet sessionId s.sessions with
    | none => exact h
    | some sess =>
      refine ⟨alistSet_keys_nodup _ _ h.1, ?_⟩
      have hlen := alistSet_length_some h.1 hget
        ({ sess with pendingRefresh := true } : SessionS)
      have h2 := h.2
      dsimp only
      omega

theorem getBackoffDelay_WInv {s : WatcherState} (h : WInv s) (sessionId : String) :
    WInv (getBackoffDelay sessionId s).2 := ⟨h.1, h.2⟩

theorem scheduleRefresh_WInv {s : WatcherState} (h : WInv s) (sessionId : String) (d : Nat) :
    WInv (scheduleRefreshCheckWithDelay sessionId d s) := ⟨h.1, h.2⟩

theorem resetBackoff_WInv {s : WatcherState} (h : WInv s) (sessionId : String) :
    WInv (resetBackoff sessionId s) := ⟨h.1, h.2⟩

theorem performRefreshCheck_WInv {s : WatcherState} (h : WInv s) (sessionId : String)
    (outcome : Option Bool) : WInv (performRefreshCheck sessionId outcome s).1 := by
  unfold performRefreshCheck
  cases hget : alistGet sessionId s.sessions with
  | none => exact h
  | some sess =>
    dsimp only
    split
    · exact h
    · have h0 := setPending_WInv h sessionId false
      cases outcome with
      | none =>
        exact scheduleRefresh_WInv
          (setPending_WInv (getBackoffDelay_WInv h0 sessionId) sessionId true) sessionId _
      | some b =>
        cases b
        · exact resetBackoff_WInv h0 sessionId
        · exact resetBackoff_WInv h0 sessionId

theorem fireTimer_WInv {s : WatcherState} (h : WInv s) (sessionId : String)
    (outcome : Option Bool) : WInv (fireTimer sessionId outcome s).1 := by
  unfold fireTimer
  cases hget : alistGet sessionId s.timers with
  | none => exact h
  | some d =>
    have ht : WInv { s with timers := alistDel sessionId s.timers } := ⟨h.1, h.2⟩
    exact performRefreshCheck_WInv ht sessionId outcome

theorem foldl_stop_WInv (ids : List String) {s : WatcherState} (h : WInv s) :
    WInv (ids.foldl (fun st id => stopWatching id st) s) := by
  induction ids generalizing s with
  | nil => exact h
  | cons a t ih => exact ih (stopWatching_WInv h a)

theorem stepW_WInv {s : WatcherState} (h : WInv s) (op : WOp) : WInv (stepW s op) := by
  cases op with
  | start sessionId wt ok => exact startWatching_WInv h sessionId wt ok
  | stop sessionId => exact stopWatching_WInv h sessionId
  | stopAllW => exact foldl_stop_WInv _ h
  | fileEvent sessionId f => exact handleFileChange_WInv h sessionId f
  | timerFire sessionId oc => exact fireTimer_WInv h sessionId oc

theorem foldl_stepW_WInv (ops : List WOp) {s : WatcherState} (h : WInv s) :
    WInv (ops.foldl stepW s) := by
  induction ops generalizing s with
  | nil => exact h
  | cons a t ih => exact ih (stepW_WInv h a)

/-- C7: in every reachable manager state the session ids are unique and the
open handle count equals the number of live sessions (one handle per
session); and two consecutive `startWatching` calls for the same id from a
fresh manager leave one session, two handles opened and exactly one closed
— so exactly one handle open. -/
theorem watcher_single_session_c7 :
    (∀ ops : List WOp, WInv (runW ops)) ∧
    (∀ sessionId wt : String,
      (startWatching sessionId wt true (startWatching sessionId wt true initW)).sessions.length
          = 1 ∧
      (startWatching sessionId wt true (startWatching sessionId wt true initW)).opened = 2 ∧
      (startWatching sessionId wt true (startWatching sessionId wt true initW)).closed = 1) := by
  refine ⟨fun ops => foldl_stepW_WInv ops initW_WInv, fun sessionId wt => ?_⟩
  simp [startWatching, stopWatching, alistGet, alistSet, alistDel, initW]

/-! ## Claim C1: exponential backoff delays -/

theorem alistGet_set_same {α : Type} (k : String) (v : α) (l : List (String × α)) :
    alistGet k (alistSet k v l) = some v := by
  simp [alistSet, alistGet]

/-- One inconclusive check from a pending session with an armed timer:
nothing is emitted, the session stays pending, the failure streak is
incremented, and the retry timer is armed with the backoff delay computed
from the previous streak. -/
theorem fail_step (s : WatcherState) (sessionId wt : String) (d : Nat)
    (hs : alistGet sessionId s.sessions = some ⟨wt, true⟩)
    (ht : alistGet sessionId s.timers = some d) :
    (fireTimer sessionId none s).2 = [] ∧
    alistGet sessionId (fireTimer sessionId none s).1.sessions = some ⟨wt, true⟩ ∧
    alistGet sessionId (fireTimer sessionId none s).1.errorCounts
      = some ((alistGet sessionId s.errorCounts).getD 0 + 1) ∧
    alistGet sessionId (fireTimer sessionId none s).1.timers
      = some (min (1000 * 2 ^ (alistGet sessionId s.errorCounts).getD 0) 30000) := by
  simp [fireTimer, ht, performRefreshCheck, hs, setPending, getBackoffDelay,
    scheduleRefreshCheckWithDelay, alistGet_set_same]

/-- After `n ≥ 1` consecutive inconclusive checks starting from a clean
failure streak, the session is still pending, the streak is `n`, and the
armed retry delay is `min(1000·2^(n-1), 30000)`. -/
theorem afterNFails_spec (s : WatcherState) (sessionId wt : String) (d : Nat)
    (hs : alistGet sessionId s.sessions = some ⟨wt, true⟩)
    (he : alistGet sessionId s.errorCounts = none)
    (ht : alistGet sessionId s.timers = some d) :
    ∀ n, 1 ≤ n →
      alistGet sessionId (afterNFails sessionId s n).sessions = some ⟨wt, true⟩ ∧
      alistGet sessionId (afterNFails sessionId s n).errorCounts = some n ∧
      alistGet sessionId (afterNFails sessionId s n).timers
        = some (min (1000 * 2 ^ (n - 1)) 30000) := by
  intro n hn
  induction n with
  | zero => omega
  | succ m ih =>
    rcases Nat.eq_zero_or_pos m with hm | hm
    · subst hm
      have h1 := fail_step s sessionId wt d hs ht
      rw [show afterNFails sessionId s 1 = (fireTimer sessionId none s).1 from rfl]
      refine ⟨h1.2.1, ?_, ?_⟩
      · rw [h1.2.2.1, he]
        rfl
      · rw [h1.2.2.2, he]
        rfl
    · have ihm := ih hm
      have h1 := fail_step (afterNFails sessionId s m) sessionId wt
        (min (1000 * 2 ^ (m - 1)) 30000) ihm.1 ihm.2.2
      rw [show afterNFails sessionId s (m + 1)
            = (fireTimer sessionId none (afterNFails sessionId s m)).1 from rfl]
      refine ⟨h1.2.1, ?_, ?_⟩
      · rw [h1.2.2.1, ihm.2.1]
        rfl
      · rw [h1.2.2.2, ihm.2.1]
        simp

/-- One definitive check (changed or clean): the streak entry is deleted
and `needs-refresh` is emitted only for a "changed" result. -/
theorem definitive_step (s : WatcherState) (sessionId wt : String) (d : Nat) (b : Bool)
    (hs : alistGet sessionId s.sessions = some ⟨wt, true⟩)
    (ht : alistGet sessionId s.timers = some d) :
    alistGet sessionId (fireTimer sessionId (some b) s).1.sessions = some ⟨wt, false⟩ ∧
    alistGet sessionId (fireTimer sessionId (some b) s).1.errorCounts = none ∧
    (fireTimer sessionId (some b) s).2 = (if b then [sessionId] else []) := by
  cases b <;>
    simp [fireTimer, ht, performRefreshCheck, hs, setPending, resetBackoff,
      alistGet_set_same, alistGet_del_same]

/-- A non-ignored file event on an existing session: pending set, debounce
timer armed at 1500 ms, failure streak untouched. -/
theorem fileChange_step (s : WatcherState) (sessionId wt filename : String) (p : Bool)
    (hs : alistGet sessionId s.sessions = some ⟨wt, p⟩)
    (hig : shouldIgnoreFile filename = false) :
    alistGet sessionId (handleFileChange sessionId filename s).sessions = some ⟨wt, true⟩ ∧
    alistGet sessionId (handleFileChange sessionId filename s).timers = some 1500 ∧
    (handleFileChange sessionId filename s).errorCounts = s.errorCounts := by
  simp [handleFileChange, hig, hs, scheduleRefreshCheckWithDelay, alistGet_set_same]

/-- C1: from a pending watch session with no failure streak, the `n`-th
consecutive inconclusive check schedules a retry delay of exactly
`min(1000·2^(n-1), 30000)` milliseconds, and after a definitive check
result (which resets the streak) followed by a fresh file event, the next
inconclusive check schedules 1000 ms again. -/
theorem backoff_delays_c1 (s : WatcherState) (sessionId wt : String) (d : Nat)
    (hs : alistGet sessionId s.sessions = some ⟨wt, true⟩)
    (he : alistGet sessionId s.errorCounts = none)
    (ht : alistGet sessionId s.timers = some d) :
    (∀ n, 1 ≤ n →
      alistGet sessionId (afterNFails sessionId s n).timers
        = some (min (1000 * 2 ^ (n - 1)) 30000)) ∧
    (∀ n b filename, 1 ≤ n → shouldIgnoreFile filename = false →
      alistGet sessionId
          ((fireTimer sessionId none
            (handleFileChange sessionId filename
              (fireTimer sessionId (some b) (afterNFails sessionId s n)).1)).1).timers
        = some 1000) := by
  constructor
  · intro n hn
    exact (afterNFails_spec s sessionId wt d hs he ht n hn).2.2
  · intro n b filename hn hig
    have hfails := afterNFails_spec s sessionId wt d hs he ht n hn
    have hdef := definitive_step (afterNFails sessionId s n) sessionId wt
      (min (1000 * 2 ^ (n - 1)) 30000) b hfails.1 hfails.2.2
    have hfc := fileChange_step (fireTimer sessionId (some b) (afterNFails sessionId s n)).1
      sessionId wt filename false hdef.1 hig
    have herr : alistGet sessionId
        (handleFileChange sessionId filename
          (fireTimer sessionId (some b) (afterNFails sessionId s n)).1).errorCounts = none := by
      rw [hfc.2.2]
      exact hdef.2.1
    have hfinal := fail_step _ sessionId wt 1500 hfc.1 hfc.2.1
    rw [hfinal.2.2.2, herr]
    rfl

def watchW0 : WatcherState :=
  handleFileChange "s1" "a.txt" (startWatching "s1" "/wt" true initW)

/-- Witness for C1: three consecutive inconclusive checks from a fresh
pending session schedule delays 1000, 2000, 4000 ms. -/
theorem backoff_delays_c1_witness :
    alistGet "s1" (afterNFails "s1" watchW0 1).timers = some 1000 ∧
    alistGet "s1" (afterNFails "s1" watchW0 2).timers = some 2000 ∧
    alistGet "s1" (afterNFails "s1" watchW0 3).timers = some 4000 := by
  have h := backoff_delays_c1 watchW0 "s1" "/wt" 1500 (by decide) (by decide) (by decide)
  refine ⟨?_, ?_, ?_⟩
  · rw [h.1 1 (by decide)]
    decide
  · rw [h.1 2 (by decide)]
    decide
  · rw [h.1 3 (by decide)]
    decide

/-! ## Claim C8: transient conditions are inconclusive and retried -/

/-- C8: a present `index.lock` in the resolved metadata directory, or any
failing gateway call in the check pipeline (worktree probe, `--git-dir`
resolution, index refresh, untracked listing), makes the check
inconclusive; and an inconclusive check emits no `needs-refresh`, records
no definitive result (the streak grows instead of resetting), sets the
session pending again, and schedules a backoff retry — the failure is
never surfaced to the caller (every branch returns normally). -/
theorem transient_inconclusive_c8 :
    (∀ (env : CheckEnv) (wt raw : String),
      env.insideWorkTree = some "true" → env.gitDirRaw = some raw →
      env.fileExists (joinPath (resolvedGitDir wt raw) "index.lock") = true →
      checkIfRefreshNeeded env wt = none) ∧
    (∀ (env : CheckEnv) (wt : String), env.insideWorkTree = none →
      checkIfRefreshNeeded env wt = none) ∧
    (∀ (env : CheckEnv) (wt : String), env.gitDirRaw = none →
      checkIfRefreshNeeded env wt = none) ∧
    (∀ (env : CheckEnv) (wt : String), env.updateIndexOk = false →
      checkIfRefreshNeeded env wt = none) ∧
    (∀ (env : CheckEnv) (wt : String), env.diffFilesQuiet = true →
      env.diffIndexQuiet = true → env.untrackedOutput = none →
      checkIfRefreshNeeded env wt = none) ∧
    (∀ (s : WatcherState) (sessionId wt : String) (d : Nat),
      alistGet sessionId s.sessions = some ⟨wt, true⟩ →
      alistGet sessionId s.timers = some d →
      (fireTimer sessionId none s).2 = [] ∧
      alistGet sessionId (fireTimer sessionId none s).1.sessions = some ⟨wt, true⟩ ∧
      alistGet sessionId (fireTimer sessionId none s).1.errorCounts
        = some ((alistGet sessionId s.errorCounts).getD 0 + 1) ∧
      alistGet sessionId (fireTimer sessionId none s).1.timers
        = some (min (1000 * 2 ^ (alistGet sessionId s.errorCounts).getD 0) 30000)) := by
  refine ⟨?_, ?_, ?_, ?_, ?_, fun s sessionId wt d hs ht => fail_step s sessionId wt d hs ht⟩
  · intro env wt raw h1 h2 h3
    unfold checkIfRefreshNeeded
    rw [h1, h2]
    simp [h3]
  · intro env wt h
    unfold checkIfRefreshNeeded
    rw [h]
  · intro env wt h
    unfold checkIfRefreshNeeded
    rcases hi : env.insideWorkTree with _ | out
    · rfl
    · dsimp only
      rw [h]
      split <;> rfl
  · intro env wt h
    unfold checkIfRefreshNeeded
    rcases hi : env.insideWorkTree with _ | out
    · rfl
    · dsimp only
      split
      · rfl
      · rcases hg : env.gitDirRaw with _ | raw
        · rfl
        · dsimp only
          split
          · rfl
          · rw [h]
            rfl
  · intro env wt h1 h2 h3
    unfold checkIfRefreshNeeded
    rcases hi : env.insideWorkTree with _ | out
    · rfl
    · dsimp only
      split
      · rfl
      · rcases hg : env.gitDirRaw with _ | raw
        · rfl
        · dsimp only
          split
          · rfl
          · rw [h1, h2, h3]
            split <;> rfl

def lockEnv : CheckEnv :=
  { insideWorkTree := some "true", gitDirRaw := some ".git",
    fileExists := fun p => p = "/wt/.git/index.lock",
    updateIndexOk := true, diffFilesQuiet := true, diffIndexQuiet := true,
    untrackedOutput := some "" }

/-- Witness for C8: a lock file in the resolved metadata directory makes a
concrete check inconclusive, and an inconclusive check on a concrete
pending session emits nothing and keeps the session pending. -/
theorem transient_inconclusive_c8_witness :
    checkIfRefreshNeeded lockEnv "/wt" = none ∧
    (fireTimer "s1" none watchW0).2 = [] ∧
    alistGet "s1" (fireTimer "s1" none watchW0).1.sessions = some ⟨"/wt", true⟩ := by
  have h1 := transient_inconclusive_c8.1 lockEnv "/wt" ".git" rfl rfl (by decide)
  have h2 := transient_inconclusive_c8.2.2.2.2.2 watchW0 "s1" "/wt" 1500
    (by decide) (by decide)
  exact ⟨h1, h2.1, h2.2.1⟩

end Crystal
